import Mathlib

/-!
Verification of `src/main.py` (per-person per-day time aggregation).

Shallow embedding notes:

* A Python `datetime` parsed by `datetime.strptime(s, '%d-%m-%Y %H:%M:%S')`
  always has microsecond 0, so it is faithfully represented by its count of
  whole seconds from a fixed reference midnight (`DT.seconds : Int`).
  Ordering of datetimes corresponds to ordering of these counts,
  `(end - start).total_seconds()` is exactly `end.seconds - start.seconds`
  (an integer, so the `int(...)` cast in the source is exact), and
  `dt.date()` corresponds to the floor `dt.seconds / 86400` since the
  reference point is a midnight.  The `'%Y-%m-%d'` day-key string is
  injective on dates, so the integer day number is a faithful stand-in for
  the string key.
* `parse_datetime` (line 25-26) delegates entirely to the standard library
  `datetime.strptime`; we embed it by the observable outcome of that call
  on a child element's `.text`: `FieldText.valid dt` (the text parses to
  `dt`), `FieldText.invalid raw` (a string that makes `strptime` raise
  `ValueError`), or `FieldText.noText` (the element has no text, `.text`
  is Python `None`, on which `strptime` raises `TypeError`).
* The lxml stream (`etree.iterparse(file_path, tag="person")`, line 45) is
  the external record source: a finite forward-only sequence whose `next`
  either yields a `person` element, ends with `StopIteration`, or raises
  `XMLSyntaxError`.  We embed it as a `List StreamItem`.
* Python `dict` preserves insertion order; `peoples : Dict[str, Dict[str, int]]`
  is embedded as an insertion-ordered association list with Python's
  `get` / item-assignment semantics (`accGet`/`accSet`, `dmGet`/`dmSet`).
* Diagnostics (`logger.warning(...)`) are collected in emission order as a
  `List Diag`; the uncaught exceptions (`AppException` raised on
  `XMLSyntaxError`, and the `TypeError` escaping the `except ValueError`
  handler when `.text` is `None`) are the `Except` error channel.
-/

/-- A parsed timestamp, represented by its whole-second count from a fixed
reference midnight (see the header comment). -/
structure DT where
  seconds : Int
deriving DecidableEq, Repr

/-- The observable outcome of `datetime.strptime(text, '%d-%m-%Y %H:%M:%S')`
on a child element's `.text` (see the header comment). -/
inductive FieldText where
  | valid (dt : DT)
  | invalid (raw : String)
  | noText
deriving DecidableEq, Repr

/-- One child element of a `person` element: a tag and its text. -/
structure Child where
  tag : String
  text : FieldText
deriving DecidableEq, Repr

/-- One `person` element: the nullable `full_name` attribute (line 56) and
the ordered children returned by `elem.getchildren()` (line 67). -/
structure Record where
  full_name : Option String
  children : List Child
deriving DecidableEq, Repr

/-- One event of the lxml `iterparse` stream: either a `person` element or
an `XMLSyntaxError` raised by `next(context)` (lines 50-54). -/
inductive StreamItem where
  | record (r : Record)
  | syntaxError (msg : String)
deriving DecidableEq, Repr

/-- The uncaught exceptions that can escape `calculate`:
`AppException` (line 54) and the `TypeError` raised by
`datetime.strptime(None, ...)`, which the `except ValueError` on line 73
does not catch. -/
inductive RunError where
  | appException (msg : String)
  | typeError
deriving DecidableEq, Repr

/-- The diagnostics emitted via `logger.warning` inside `calculate`,
identified by their source line. -/
inductive Diag where
  | missingName      -- line 58: 'Skipped! field "full_name" is not specified'
  | parseFailure     -- line 74: 'Skipped! {exc.args[0]}'
  | missingBoundary  -- line 82: 'Error. Try again!'
  | quotaExceeded    -- line 100: 'Exceeded the number of attempts'
deriving DecidableEq, Repr

/-- Inner `Dict[str, int]`: day-key to seconds, in insertion order. -/
abbrev DayMap := List (Int × Int)

/-- Outer `Dict[str, Dict[str, int]]`: person name to day map, in
insertion order. -/
abbrev Accum := List (String × DayMap)

/-- Python `d.get(k)` on the inner dict: first (only) binding of `k`. -/
def dmGet : DayMap → Int → Option Int
  | [], _ => none
  | (k, v) :: rest, key => if k = key then some v else dmGet rest key

/-- Python `d.get(k, dflt)` on the inner dict. -/
def dmGetD (m : DayMap) (key dflt : Int) : Int :=
  (dmGet m key).getD dflt

/-- Python `d[k] = v` on the inner dict: replace in place, else append. -/
def dmSet : DayMap → Int → Int → DayMap
  | [], key, v => [(key, v)]
  | (k, w) :: rest, key, v =>
    if k = key then (k, v) :: rest else (k, w) :: dmSet rest key v

/-- Python `peoples.get(name)`. -/
def accGet : Accum → String → Option DayMap
  | [], _ => none
  | (n, m) :: rest, name => if n = name then some m else accGet rest name

/-- `peoples.get(name)` with `{}` standing in for `None` (both are falsy
and both make every inner `get(k, 0)` return 0). -/
def accGetD (a : Accum) (name : String) : DayMap :=
  (accGet a name).getD []

/-- Python `peoples[name] = m`: replace in place, else append. -/
def accSet : Accum → String → DayMap → Accum
  | [], name, m => [(name, m)]
  | (n, w) :: rest, name, m =>
    if n = name then (n, m) :: rest else (n, w) :: accSet rest name m

/-- Python truthiness of `peoples.get(name)` (line 91): falsy iff the name
is absent or bound to an empty dict. -/
def accFalsy (a : Accum) (name : String) : Bool :=
  (accGetD a name).isEmpty

/-- Line 61: `users_filter and name not in users_filter` — skips iff the
filter is present, non-empty (an empty list is falsy in Python) and does
not contain the name. -/
def usersFilterSkips : Option (List String) → String → Bool
  | none, _ => false
  | some us, name => !us.isEmpty && !us.contains name

/-- Lines 86-88: `(start_filter is not None and start < start_filter) or
(end_filter is not None and end > end_filter)`. -/
def dateFilterSkips (sf ef : Option DT) (s e : DT) : Bool :=
  (match sf with
    | some f => decide (s.seconds < f.seconds)
    | none => false) ||
  (match ef with
    | some c => decide (c.seconds < e.seconds)
    | none => false)

/-- Line 90: `start.date().strftime('%Y-%m-%d')` — the day-key, as the
floor of the second count over 86400 (the divisor is positive, so `ediv`
is the floor; see the header comment). -/
def dayKey (d : DT) : Int :=
  Int.ediv d.seconds 86400

/-- Python `str.lower()` on a tag (line 69/71): lower-case each character
(tags are ASCII element names, for which `.lower()` is exactly a
character-wise lower-casing). -/
def strLower (s : String) : String :=
  String.mk (s.data.map Char.toLower)

/-- Result of the child-scanning loop, lines 66-77: either the loop ran to
completion with the current `start`/`end` bindings, or a `ValueError` was
caught and `error_field` was set (the record is then skipped). -/
inductive ScanResult where
  | fieldError
  | done (s e : Option DT)
deriving DecidableEq, Repr

/-- Lines 66-77: scan `elem.getchildren()` in order.  A child whose
lower-cased tag is `start` (resp. `end`) rebinds `start` (resp. `end`) to
its parsed text; `ValueError` breaks the loop with `error_field = True`;
text `None` raises an uncaught `TypeError`. -/
def scanChildren : List Child → Option DT → Option DT → Except RunError ScanResult
  | [], s, e => .ok (.done s e)
  | c :: rest, s, e =>
    if strLower c.tag = "start" then
      match c.text with
      | .valid dt => scanChildren rest (some dt) e
      | .invalid _ => .ok .fieldError
      | .noText => .error .typeError
    else if strLower c.tag = "end" then
      match c.text with
      | .valid dt => scanChildren rest s (some dt)
      | .invalid _ => .ok .fieldError
      | .noText => .error .typeError
    else
      scanChildren rest s e

/-- The per-record body of the `while True` loop, lines 55-103, producing
the updated accumulation and the diagnostics this record emitted. -/
def processRecord (sf ef : Option DT) (uf : Option (List String))
    (peoples : Accum) (r : Record) : Except RunError (Accum × List Diag) :=
  match r.full_name with
  | none => .ok (peoples, [.missingName])
  | some name =>
    if usersFilterSkips uf name then .ok (peoples, [])
    else
      match scanChildren r.children none none with
      | .error err => .error err
      | .ok .fieldError => .ok (peoples, [.parseFailure])
      | .ok (.done os oe) =>
        match os, oe with
        | some s, some e =>
          if dateFilterSkips sf ef s e then .ok (peoples, [])
          else
            let date_str := dayKey s
            let peoples1 :=
              if accFalsy peoples name then accSet peoples name [(date_str, 0)]
              else peoples
            let datetime_diff := e.seconds - s.seconds
            let total_time := dmGetD (accGetD peoples1 name) date_str 0 + datetime_diff
            let ds : List Diag := if 86400 < total_time then [.quotaExceeded] else []
            let newVal := dmGetD (accGetD peoples1 name) date_str 0 + total_time
            .ok (accSet peoples1 name (dmSet (accGetD peoples1 name) date_str newVal), ds)
        | _, _ => .ok (peoples, [.missingBoundary])

/-- The `while True` loop of `calculate`, lines 48-103: drain the stream,
returning the accumulation on `StopIteration`, raising `AppException` on
`XMLSyntaxError`, and threading the per-record updates. -/
def calcLoop (sf ef : Option DT) (uf : Option (List String)) :
    List StreamItem → Accum → List Diag → Except RunError (Accum × List Diag)
  | [], acc, ds => .ok (acc, ds)
  | .syntaxError msg :: _, _, _ =>
    .error (.appException ("Invalid syntax: " ++ msg))
  | .record r :: rest, acc, ds =>
    match processRecord sf ef uf acc r with
    | .error err => .error err
    | .ok (acc', ds') => calcLoop sf ef uf rest acc' (ds ++ ds')

/-- `calculate` (lines 39-103): run the loop from the empty accumulation. -/
def calculate (items : List StreamItem) (sf ef : Option DT)
    (uf : Option (List String)) : Except RunError (Accum × List Diag) :=
  calcLoop sf ef uf items [] []

/-- Lookup of a stored per-person per-day value in the result. -/
def lookup2 (a : Accum) (name : String) (key : Int) : Option Int :=
  dmGet (accGetD a name) key

/-- The contribution a record would make, mirroring the validation and
filter cascade of lines 56-97: `none` when the record is skipped (missing
name, user filter, caught parse failure, missing boundary, date filter),
otherwise the name, day-key and elapsed seconds `end - start`. -/
def contributes (sf ef : Option DT) (uf : Option (List String))
    (r : Record) : Option (String × Int × Int) :=
  match r.full_name with
  | none => none
  | some name =>
    if usersFilterSkips uf name then none
    else
      match scanChildren r.children none none with
      | .ok (.done (some s) (some e)) =>
        if dateFilterSkips sf ef s e then none
        else some (name, dayKey s, e.seconds - s.seconds)
      | _ => none

/-- `output_timedelta`, lines 106-112, mirrored statement by statement
(including the rebinding of `hours` and `seconds`): `divmod` is floor
division (`ediv`/`emod` — the divisor is positive), while
`int(duration / 3600)` truncates toward zero (`Int.div`; the true
quotient is exactly representable here, so truncation of the float equals
integer truncation). -/
def output_timedelta (duration : Int) : String :=
  let hours := Int.ediv duration 3600
  let remainder := Int.emod duration 3600
  let minutes := Int.ediv remainder 60
  let seconds := Int.emod remainder 60
  let hours := Int.tdiv duration 3600
  let seconds := duration - hours * 3600
  s!"{hours} h, {minutes} m, {seconds} s"

/-! ### Association-list lemmas (Python dict `get` / item assignment) -/

theorem dmGet_dmSet_self (m : DayMap) (k v : Int) :
    dmGet (dmSet m k v) k = some v := by
  induction m with
  | nil => simp [dmSet, dmGet]
  | cons p rest ih =>
    by_cases h : p.1 = k
    · simp [dmSet, h, dmGet]
    · simp [dmSet, h, dmGet, ih]

theorem dmGet_dmSet_other (m : DayMap) (k v k' : Int) (h : k' ≠ k) :
    dmGet (dmSet m k v) k' = dmGet m k' := by
  have hk : k ≠ k' := Ne.symm h
  induction m with
  | nil => simp [dmSet, dmGet, hk]
  | cons p rest ih =>
    obtain ⟨pk, pv⟩ := p
    by_cases h1 : pk = k
    · subst h1
      simp [dmSet, dmGet, hk]
    · simp [dmSet, h1, dmGet, ih]

theorem accGet_accSet_self (a : Accum) (n : String) (m : DayMap) :
    accGet (accSet a n m) n = some m := by
  induction a with
  | nil => simp [accSet, accGet]
  | cons p rest ih =>
    by_cases h : p.1 = n
    · simp [accSet, h, accGet]
    · simp [accSet, h, accGet, ih]

theorem accGet_accSet_other (a : Accum) (n : String) (m : DayMap) (n' : String)
    (h : n' ≠ n) : accGet (accSet a n m) n' = accGet a n' := by
  have hn : n ≠ n' := Ne.symm h
  induction a with
  | nil => simp [accSet, accGet, hn]
  | cons p rest ih =>
    obtain ⟨pn, pm⟩ := p
    by_cases h1 : pn = n
    · subst h1
      simp [accSet, accGet, hn]
    · simp [accSet, h1, accGet, ih]

theorem accGetD_empty_of_accFalsy (a : Accum) (n : String)
    (h : accFalsy a n = true) : accGetD a n = [] := by
  simpa [accFalsy, List.isEmpty_iff] using h

theorem accGetD_accSet_self (a : Accum) (n : String) (m : DayMap) :
    accGetD (accSet a n m) n = m := by
  simp [accGetD, accGet_accSet_self]

/-- The previous value read on line 95 is unchanged by the initialization
on lines 91-92: when `peoples.get(name)` is falsy the read is 0 either
way. -/
theorem dmGetD_init (acc : Accum) (n : String) (dk : Int) :
    dmGetD (accGetD (if accFalsy acc n then accSet acc n [(dk, 0)] else acc) n) dk 0
      = dmGetD (accGetD acc n) dk 0 := by
  by_cases hf : accFalsy acc n
  · have h1 : accGetD acc n = [] := accGetD_empty_of_accFalsy acc n hf
    rw [if_pos hf, h1, accGetD_accSet_self]
    simp [dmGetD, dmGet]
  · rw [if_neg hf]

/-! ### Characterizing one iteration of the loop -/

/-- A record with `contributes ... = none` (skipped by any of the five
skip paths) leaves the accumulation unchanged. -/
theorem processRecord_acc_of_contributes_none (sf ef : Option DT)
    (uf : Option (List String)) (acc : Accum) (r : Record) (acc' : Accum)
    (ds : List Diag)
    (hp : processRecord sf ef uf acc r = .ok (acc', ds))
    (hc : contributes sf ef uf r = none) : acc' = acc := by
  cases hname : r.full_name with
  | none =>
    simp [processRecord, hname] at hp
    exact hp.1.symm
  | some name =>
    by_cases hu : usersFilterSkips uf name
    · simp [processRecord, hname, hu] at hp
      exact hp.1.symm
    · cases hscan : scanChildren r.children none none with
      | error err => simp [processRecord, hname, hu, hscan] at hp
      | ok sr =>
        cases sr with
        | fieldError =>
          simp [processRecord, hname, hu, hscan] at hp
          exact hp.1.symm
        | done os oe =>
          cases os with
          | none =>
            simp [processRecord, hname, hu, hscan] at hp
            exact hp.1.symm
          | some s =>
            cases oe with
            | none =>
              simp [processRecord, hname, hu, hscan] at hp
              exact hp.1.symm
            | some e =>
              by_cases hd : dateFilterSkips sf ef s e
              · simp [processRecord, hname, hu, hscan, hd] at hp
                exact hp.1.symm
              · exfalso
                simp [contributes, hname, hu, hscan, hd] at hc

/-- Explicit form of one loop iteration on a contributing record:
lines 90-103 with `prev` the value read by `peoples.get(name).get(date_str, 0)`
(the stored result double-adds `prev`, mirroring line 103). -/
theorem processRecord_contrib (sf ef : Option DT) (uf : Option (List String))
    (acc : Accum) (r : Record) (n : String) (dk v : Int)
    (hc : contributes sf ef uf r = some (n, dk, v)) :
    processRecord sf ef uf acc r =
      .ok (accSet (if accFalsy acc n then accSet acc n [(dk, 0)] else acc) n
             (dmSet (accGetD (if accFalsy acc n then accSet acc n [(dk, 0)] else acc) n)
               dk
               (dmGetD (accGetD acc n) dk 0 + (dmGetD (accGetD acc n) dk 0 + v))),
           if 86400 < dmGetD (accGetD acc n) dk 0 + v then [.quotaExceeded] else []) := by
  cases hname : r.full_name with
  | none => simp [contributes, hname] at hc
  | some name =>
    by_cases hu : usersFilterSkips uf name
    · simp [contributes, hname, hu] at hc
    · cases hscan : scanChildren r.children none none with
      | error err => simp [contributes, hname, hu, hscan] at hc
      | ok sr =>
        cases sr with
        | fieldError => simp [contributes, hname, hu, hscan] at hc
        | done os oe =>
          cases os with
          | none => simp [contributes, hname, hu, hscan] at hc
          | some s =>
            cases oe with
            | none => simp [contributes, hname, hu, hscan] at hc
            | some e =>
              by_cases hd : dateFilterSkips sf ef s e
              · simp [contributes, hname, hu, hscan, hd] at hc
              · simp [contributes, hname, hu, hscan, hd] at hc
                obtain ⟨h1, h2, h3⟩ := hc
                subst h1 h2 h3
                simp [processRecord, hname, hu, hscan, hd, dmGetD_init]

/-- After a contributing record, the stored value at its own (name, day)
pair is `prev + (prev + v)` — line 103 adds `prev` a second time on top of
`total_time`, which already contains it. -/
theorem lookup2_processRecord_self (sf ef : Option DT) (uf : Option (List String))
    (acc : Accum) (r : Record) (n : String) (dk v : Int) (acc' : Accum)
    (ds : List Diag)
    (hc : contributes sf ef uf r = some (n, dk, v))
    (hp : processRecord sf ef uf acc r = .ok (acc', ds)) :
    lookup2 acc' n dk =
      some (dmGetD (accGetD acc n) dk 0 + (dmGetD (accGetD acc n) dk 0 + v)) := by
  rw [processRecord_contrib sf ef uf acc r n dk v hc] at hp
  have hacc : acc' = accSet (if accFalsy acc n then accSet acc n [(dk, 0)] else acc) n
      (dmSet (accGetD (if accFalsy acc n then accSet acc n [(dk, 0)] else acc) n) dk
        (dmGetD (accGetD acc n) dk 0 + (dmGetD (accGetD acc n) dk 0 + v))) := by
    cases hp
    rfl
  rw [hacc]
  unfold lookup2
  rw [accGetD_accSet_self, dmGet_dmSet_self]

/-- After a contributing record, every other (name, day) pair reads the
same value as before. -/
theorem lookup2_processRecord_frame (sf ef : Option DT) (uf : Option (List String))
    (acc : Accum) (r : Record) (n : String) (dk v : Int) (acc' : Accum)
    (ds : List Diag) (n' : String) (k' : Int)
    (hc : contributes sf ef uf r = some (n, dk, v))
    (hp : processRecord sf ef uf acc r = .ok (acc', ds))
    (hne : ¬(n' = n ∧ k' = dk)) :
    lookup2 acc' n' k' = lookup2 acc n' k' := by
  rw [processRecord_contrib sf ef uf acc r n dk v hc] at hp
  have hacc : acc' = accSet (if accFalsy acc n then accSet acc n [(dk, 0)] else acc) n
      (dmSet (accGetD (if accFalsy acc n then accSet acc n [(dk, 0)] else acc) n) dk
        (dmGetD (accGetD acc n) dk 0 + (dmGetD (accGetD acc n) dk 0 + v))) := by
    cases hp
    rfl
  rw [hacc]
  unfold lookup2
  by_cases hn : n' = n
  · subst hn
    have hk : k' ≠ dk := fun h => hne ⟨rfl, h⟩
    rw [accGetD_accSet_self, dmGet_dmSet_other _ _ _ _ hk]
    by_cases hf : accFalsy acc n'
    · rw [if_pos hf, accGetD_accSet_self, accGetD_empty_of_accFalsy acc n' hf]
      simp [dmGet, Ne.symm hk]
    · rw [if_neg hf]
  · have h1 : accGetD (accSet (if accFalsy acc n then accSet acc n [(dk, 0)] else acc) n
        (dmSet (accGetD (if accFalsy acc n then accSet acc n [(dk, 0)] else acc) n) dk
          (dmGetD (accGetD acc n) dk 0 + (dmGetD (accGetD acc n) dk 0 + v)))) n'
        = accGetD (if accFalsy acc n then accSet acc n [(dk, 0)] else acc) n' := by
      unfold accGetD
      rw [accGet_accSet_other _ _ _ _ hn]
    rw [h1]
    by_cases hf : accFalsy acc n
    · rw [if_pos hf]
      unfold accGetD
      rw [accGet_accSet_other _ _ _ _ hn]
    · rw [if_neg hf]

/-! ### Lemmas about the stream loop -/

/-- Reading one record from the stream: the loop either propagates the
record's error or continues on the updated state. -/
theorem calcLoop_cons_record (sf ef : Option DT) (uf : Option (List String))
    (r : Record) (rest : List StreamItem) (acc : Accum) (ds : List Diag)
    (out : Accum × List Diag)
    (h : calcLoop sf ef uf (.record r :: rest) acc ds = .ok out) :
    ∃ acc' ds', processRecord sf ef uf acc r = .ok (acc', ds') ∧
      calcLoop sf ef uf rest acc' (ds ++ ds') = .ok out := by
  cases hp : processRecord sf ef uf acc r with
  | error err => simp [calcLoop, hp] at h
  | ok p =>
    obtain ⟨acc', ds'⟩ := p
    exact ⟨acc', ds', rfl, by simpa [calcLoop, hp] using h⟩

/-- A stream containing a structural failure never completes: splitting
the loop across an append. -/
theorem calcLoop_append_ok (sf ef : Option DT) (uf : Option (List String))
    (xs ys : List StreamItem) (acc : Accum) (ds : List Diag)
    (out : Accum × List Diag)
    (h : calcLoop sf ef uf (xs ++ ys) acc ds = .ok out) :
    ∃ acc' ds', calcLoop sf ef uf xs acc ds = .ok (acc', ds') ∧
      calcLoop sf ef uf ys acc' ds' = .ok out := by
  induction xs generalizing acc ds with
  | nil => exact ⟨acc, ds, rfl, h⟩
  | cons x xs ih =>
    cases x with
    | syntaxError msg => simp [calcLoop] at h
    | record r =>
      rw [List.cons_append] at h
      obtain ⟨acc', ds', hp, hrest⟩ := calcLoop_cons_record sf ef uf r (xs ++ ys) acc ds out h
      obtain ⟨acc'', ds'', h1, h2⟩ := ih acc' (ds ++ ds') hrest
      exact ⟨acc'', ds'', by simp [calcLoop, hp, h1], h2⟩

/-- Unpacking a contributing record: its scan must have completed with
both boundaries, the day key is the start's date and the value is
`end − start` in seconds. -/
theorem contributes_some_elim (sf ef : Option DT) (uf : Option (List String))
    (r : Record) (n : String) (dk v : Int)
    (hc : contributes sf ef uf r = some (n, dk, v)) :
    ∃ s e : DT, scanChildren r.children none none = .ok (.done (some s) (some e)) ∧
      r.full_name = some n ∧ dk = dayKey s ∧ v = e.seconds - s.seconds := by
  cases hname : r.full_name with
  | none => simp [contributes, hname] at hc
  | some name =>
    by_cases hu : usersFilterSkips uf name
    · simp [contributes, hname, hu] at hc
    · cases hscan : scanChildren r.children none none with
      | error err => simp [contributes, hname, hu, hscan] at hc
      | ok sr =>
        cases sr with
        | fieldError => simp [contributes, hname, hu, hscan] at hc
        | done os oe =>
          cases os with
          | none => simp [contributes, hname, hu, hscan] at hc
          | some s =>
            cases oe with
            | none => simp [contributes, hname, hu, hscan] at hc
            | some e =>
              by_cases hd : dateFilterSkips sf ef s e
              · simp [contributes, hname, hu, hscan, hd] at hc
              · simp [contributes, hname, hu, hscan, hd] at hc
                obtain ⟨h1, h2, h3⟩ := hc
                exact ⟨s, e, rfl, congrArg some h1, h2.symm, h3.symm⟩

/-- If no record of the stream contributes to the pair (n, dk), the loop
leaves that entry exactly as it started. -/
theorem lookup2_calcLoop_no_contrib (sf ef : Option DT) (uf : Option (List String))
    (items : List StreamItem) (acc : Accum) (ds : List Diag)
    (out : Accum × List Diag) (n : String) (dk : Int)
    (h : calcLoop sf ef uf items acc ds = .ok out)
    (hnc : ∀ r, StreamItem.record r ∈ items → ∀ n' dk' v',
      contributes sf ef uf r = some (n', dk', v') → ¬(n' = n ∧ dk' = dk)) :
    lookup2 out.1 n dk = lookup2 acc n dk := by
  induction items generalizing acc ds with
  | nil =>
    simp [calcLoop] at h
    subst h
    rfl
  | cons x rest ih =>
    cases x with
    | syntaxError msg => simp [calcLoop] at h
    | record r =>
      obtain ⟨acc', ds', hp, hrest⟩ := calcLoop_cons_record sf ef uf r rest acc ds out h
      have hnc' : ∀ r', StreamItem.record r' ∈ rest → ∀ n' dk' v',
          contributes sf ef uf r' = some (n', dk', v') → ¬(n' = n ∧ dk' = dk) :=
        fun r' hr' => hnc r' (List.mem_cons_of_mem _ hr')
      cases hc : contributes sf ef uf r with
      | none =>
        have := processRecord_acc_of_contributes_none sf ef uf acc r acc' ds' hp hc
        subst this
        exact ih acc' (ds ++ ds') hrest hnc'
      | some t =>
        obtain ⟨n0, dk0, v0⟩ := t
        have hne : ¬(n0 = n ∧ dk0 = dk) :=
          hnc r (List.mem_cons_self _ _) n0 dk0 v0 hc
        have hframe : lookup2 acc' n dk = lookup2 acc n dk := by
          refine lookup2_processRecord_frame sf ef uf acc r n0 dk0 v0 acc' ds' n dk hc hp ?_
          intro hcon
          exact hne ⟨hcon.1.symm, hcon.2.symm⟩
        rw [ih acc' (ds ++ ds') hrest hnc', hframe]

/-- A stream containing a structural failure can never finish normally. -/
theorem calcLoop_no_ok_of_syntaxError (sf ef : Option DT)
    (uf : Option (List String)) (items : List StreamItem) (msg : String)
    (hmem : StreamItem.syntaxError msg ∈ items) (acc : Accum) (ds : List Diag)
    (out : Accum × List Diag) :
    calcLoop sf ef uf items acc ds ≠ .ok out := by
  induction items generalizing acc ds with
  | nil => cases hmem
  | cons x rest ih =>
    cases x with
    | syntaxError m => simp [calcLoop]
    | record r =>
      intro h
      obtain ⟨acc', ds', _, hrest⟩ := calcLoop_cons_record sf ef uf r rest acc ds out h
      have hmem' : StreamItem.syntaxError msg ∈ rest := by
        cases hmem with
        | tail _ hm => exact hm
      exact ih hmem' acc' (ds ++ ds') hrest

/-- Splitting `scanChildren` across an append: later children are scanned
from the bindings the earlier ones produced, and an aborted scan never
reaches them. -/
theorem scanChildren_append (cs₁ cs₂ : List Child) (s e : Option DT) :
    scanChildren (cs₁ ++ cs₂) s e =
      match scanChildren cs₁ s e with
      | .ok (.done s' e') => scanChildren cs₂ s' e'
      | r => r := by
  induction cs₁ generalizing s e with
  | nil => simp [scanChildren]
  | cons c rest ih =>
    by_cases h1 : strLower c.tag = "start"
    · cases ht : c.text <;> simp [scanChildren, h1, ht, ih]
    · by_cases h2 : strLower c.tag = "end"
      · cases ht : c.text <;> simp [scanChildren, h1, h2, ht, ih]
      · simp [scanChildren, h1, h2, ih]

/-- If every record of the stream that scans to two boundaries has
`end ≥ start`, the loop preserves non-negativity of all stored values. -/
theorem calcLoop_nonneg (sf ef : Option DT) (uf : Option (List String))
    (items : List StreamItem) (acc : Accum) (ds : List Diag)
    (out : Accum × List Diag)
    (h : calcLoop sf ef uf items acc ds = .ok out)
    (hrecs : ∀ r, StreamItem.record r ∈ items → ∀ s e : DT,
      scanChildren r.children none none = .ok (.done (some s) (some e)) →
      s.seconds ≤ e.seconds)
    (hacc : ∀ n k val, lookup2 acc n k = some val → 0 ≤ val) :
    ∀ n k val, lookup2 out.1 n k = some val → 0 ≤ val := by
  induction items generalizing acc ds with
  | nil =>
    simp [calcLoop] at h
    subst h
    exact hacc
  | cons x rest ih =>
    cases x with
    | syntaxError msg => simp [calcLoop] at h
    | record r =>
      obtain ⟨acc', ds', hp, hrest⟩ := calcLoop_cons_record sf ef uf r rest acc ds out h
      have hrecs' : ∀ r', StreamItem.record r' ∈ rest → ∀ s e : DT,
          scanChildren r'.children none none = .ok (.done (some s) (some e)) →
          s.seconds ≤ e.seconds :=
        fun r' hr' => hrecs r' (List.mem_cons_of_mem _ hr')
      refine ih acc' (ds ++ ds') hrest hrecs' ?_
      cases hc : contributes sf ef uf r with
      | none =>
        have heq := processRecord_acc_of_contributes_none sf ef uf acc r acc' ds' hp hc
        subst heq
        exact hacc
      | some t =>
        obtain ⟨n0, dk0, v0⟩ := t
        obtain ⟨s, e, hscan, _, _, hv⟩ := contributes_some_elim sf ef uf r n0 dk0 v0 hc
        have hse : s.seconds ≤ e.seconds := hrecs r (List.mem_cons_self _ _) s e hscan
        have hv0 : 0 ≤ v0 := by omega
        intro n k val hval
        by_cases hpair : n = n0 ∧ k = dk0
        · obtain ⟨hn, hk⟩ := hpair
          subst hn
          subst hk
          have hself := lookup2_processRecord_self sf ef uf acc r n k v0 acc' ds' hc hp
          rw [hval] at hself
          have hveq : val = dmGetD (accGetD acc n) k 0 + (dmGetD (accGetD acc n) k 0 + v0) :=
            Option.some.inj hself
          have hprev : 0 ≤ dmGetD (accGetD acc n) k 0 := by
            unfold dmGetD
            cases hl : dmGet (accGetD acc n) k with
            | none => simp
            | some w =>
              have hw : lookup2 acc n k = some w := hl
              simpa using hacc n k w hw
          omega
        · have hframe :=
            lookup2_processRecord_frame sf ef uf acc r n0 dk0 v0 acc' ds' n k hc hp hpair
          rw [hframe] at hval
          exact hacc n k val hval

/-! ### Claim theorems -/

/-- C1: the claim states that the value stored for a (person, day) pair
equals the sum of the per-record `end − start` seconds over contributing
records.  The code violates this: line 103 re-adds the previous stored
total on top of `total_time`, which already contains it, so two records
with elapsed 100 and 200 seconds on the same day store 400 instead of
300.  This theorem evaluates the code at that failing input. -/
theorem calculate_double_adds_previous_total :
    calculate
      [.record ⟨some "A", [⟨"start", .valid ⟨0⟩⟩, ⟨"end", .valid ⟨100⟩⟩]⟩,
       .record ⟨some "A", [⟨"start", .valid ⟨10⟩⟩, ⟨"end", .valid ⟨210⟩⟩]⟩]
      none none none = .ok ([("A", [(0, 400)])], []) ∧
    contributes none none none
      ⟨some "A", [⟨"start", .valid ⟨0⟩⟩, ⟨"end", .valid ⟨100⟩⟩]⟩ = some ("A", 0, 100) ∧
    contributes none none none
      ⟨some "A", [⟨"start", .valid ⟨10⟩⟩, ⟨"end", .valid ⟨210⟩⟩]⟩ = some ("A", 0, 200) ∧
    (100 : Int) + 200 ≠ 400 :=
  ⟨rfl, rfl, rfl, by decide⟩

/-- C2: two same-person same-day records with durations 3600 and 82900
produce a single day entry and exactly one quota-exceeded diagnostic, and
the record is kept — but the stored value is 90100, not the claimed
86500, because line 103 double-adds the first record's total. -/
theorem calculate_quota_two_records_eval :
    calculate
      [.record ⟨some "Alice", [⟨"start", .valid ⟨0⟩⟩, ⟨"end", .valid ⟨3600⟩⟩]⟩,
       .record ⟨some "Alice", [⟨"start", .valid ⟨4000⟩⟩, ⟨"end", .valid ⟨86900⟩⟩]⟩]
      none none none = .ok ([("Alice", [(0, 90100)])], [.quotaExceeded]) ∧
    (90100 : Int) ≠ 86500 :=
  ⟨rfl, by decide⟩

/-- C3: the claim says no single-record data defect ever aborts the run.
Missing name, unparseable text and a missing boundary are indeed recovered
by a local skip, but a `start`/`end` child with empty text (`.text` is
`None`) reaches `datetime.strptime(None, ...)`, whose `TypeError` is not
caught by the `except ValueError` handler on line 73 and aborts the whole
aggregation. -/
theorem empty_text_raises_uncaught_typeError :
    calculate [.record ⟨some "A", [⟨"start", .noText⟩]⟩] none none none
      = .error .typeError ∧
    calculate [.record ⟨none, [⟨"start", .valid ⟨0⟩⟩]⟩] none none none
      = .ok ([], [.missingName]) ∧
    calculate [.record ⟨some "A", [⟨"start", .invalid "no-date"⟩]⟩] none none none
      = .ok ([], [.parseFailure]) ∧
    calculate [.record ⟨some "A", [⟨"start", .valid ⟨0⟩⟩]⟩] none none none
      = .ok ([], [.missingBoundary]) :=
  ⟨rfl, rfl, rfl, rfl⟩

/-- C4: drawing a structural failure from the source raises the
`AppException` built from the `XMLSyntaxError` immediately, whatever state
the loop already reached, and a stream containing a structural failure
never returns an accumulation to the caller. -/
theorem calculate_structural_failure_aborts :
    (∀ (sf ef : Option DT) (uf : Option (List String)) (msg : String)
        (rest : List StreamItem) (acc : Accum) (ds : List Diag),
      calcLoop sf ef uf (.syntaxError msg :: rest) acc ds
        = .error (.appException ("Invalid syntax: " ++ msg))) ∧
    (∀ (items : List StreamItem) (sf ef : Option DT) (uf : Option (List String))
        (msg : String), StreamItem.syntaxError msg ∈ items →
      ∀ (acc : Accum) (ds : List Diag), calculate items sf ef uf ≠ .ok (acc, ds)) := by
  constructor
  · intro sf ef uf msg rest acc ds
    rfl
  · intro items sf ef uf msg hmem acc ds
    exact calcLoop_no_ok_of_syntaxError sf ef uf items msg hmem [] [] (acc, ds)

/-- C4 witness: a concrete truncated document aborts with the wrapped
message, and a stream ending in a structural failure returns no partial
accumulation. -/
theorem calculate_structural_failure_aborts_witness :
    calcLoop none none none [.syntaxError "unclosed token"] [] []
      = .error (.appException ("Invalid syntax: " ++ "unclosed token")) ∧
    calculate [.record ⟨some "A", []⟩, .syntaxError "unclosed token"] none none none
      ≠ .ok ([], [.missingBoundary]) :=
  ⟨calculate_structural_failure_aborts.1 none none none "unclosed token" [] [] [],
   calculate_structural_failure_aborts.2 _ none none none "unclosed token"
     (by simp) [] [.missingBoundary]⟩

/-- C5 counterexample: in a record whose children carry two
case-insensitive `start` tags (timestamps on day 0 and day 1) and an
`end`, the stored entry sits at day 1 with elapsed 50 — determined by the
second `start` occurrence — and there is no entry at the first
occurrence's day 0, refuting "only the first such occurrence determines
the record's start". -/
theorem scan_first_occurrence_claim_counterexample :
    calculate
      [.record ⟨some "A", [⟨"Start", .valid ⟨0⟩⟩, ⟨"START", .valid ⟨86400⟩⟩,
                           ⟨"End", .valid ⟨86450⟩⟩]⟩]
      none none none = .ok ([("A", [(1, 50)])], []) ∧
    dayKey ⟨0⟩ = 0 ∧
    lookup2 [("A", [(1, 50)])] "A" 0 = none :=
  ⟨rfl, rfl, rfl⟩

/-- C5 (amended): the last child whose tag case-insensitively matches
`start` (resp. `end`) determines the record's start (resp. end) — each
valid occurrence overwrites the previous binding — and scanning stops at
the first matching child whose text fails to parse, discarding the whole
record (a `parseFailure` diagnostic, accumulation untouched) no matter
what children follow. -/
theorem scan_last_occurrence_determines :
    (∀ (cs : List Child) (tg : String) (v : DT) (s e s' e' : Option DT),
      strLower tg = "start" →
      scanChildren cs s e = .ok (.done s' e') →
      scanChildren (cs ++ [⟨tg, .valid v⟩]) s e = .ok (.done (some v) e')) ∧
    (∀ (cs : List Child) (tg : String) (v : DT) (s e s' e' : Option DT),
      strLower tg = "end" →
      scanChildren cs s e = .ok (.done s' e') →
      scanChildren (cs ++ [⟨tg, .valid v⟩]) s e = .ok (.done s' (some v))) ∧
    (∀ (cs rest : List Child) (tg raw : String) (s e s' e' : Option DT),
      (strLower tg = "start" ∨ strLower tg = "end") →
      scanChildren cs s e = .ok (.done s' e') →
      scanChildren (cs ++ ⟨tg, .invalid raw⟩ :: rest) s e = .ok .fieldError) ∧
    (∀ (sf ef : Option DT) (uf : Option (List String)) (acc : Accum)
        (r : Record) (name : String),
      r.full_name = some name → usersFilterSkips uf name = false →
      scanChildren r.children none none = .ok .fieldError →
      processRecord sf ef uf acc r = .ok (acc, [.parseFailure])) := by
  refine ⟨?_, ?_, ?_, ?_⟩
  · intro cs tg v s e s' e' htg hscan
    rw [scanChildren_append, hscan]
    simp [scanChildren, htg]
  · intro cs tg v s e s' e' htg hscan
    have hne : ¬strLower tg = "start" := by
      rw [htg]
      decide
    rw [scanChildren_append, hscan]
    simp [scanChildren, hne, htg]
  · intro cs rest tg raw s e s' e' htg hscan
    rw [scanChildren_append, hscan]
    rcases htg with h | h
    · simp [scanChildren, h]
    · have hne : ¬strLower tg = "start" := by
        rw [h]
        decide
      simp [scanChildren, hne, h]
  · intro sf ef uf acc r name hname hu hscan
    simp [processRecord, hname, hu, hscan]

/-- C5 witness: a second (differently-cased) `start` child overwrites the
first, and an unparseable `end` text discards the record even though a
valid `end` follows it. -/
theorem scan_last_occurrence_determines_witness :
    scanChildren ([⟨"start", .valid ⟨3⟩⟩] ++ [⟨"Start", .valid ⟨9⟩⟩]) none none
      = .ok (.done (some ⟨9⟩) none) ∧
    scanChildren ([⟨"start", .valid ⟨3⟩⟩] ++ ⟨"end", .invalid "bad"⟩ ::
        [⟨"end", .valid ⟨5⟩⟩]) none none
      = .ok .fieldError :=
  ⟨scan_last_occurrence_determines.1 [⟨"start", .valid ⟨3⟩⟩] "Start" ⟨9⟩
      none none (some ⟨3⟩) none rfl rfl,
   scan_last_occurrence_determines.2.2.1 [⟨"start", .valid ⟨3⟩⟩]
      [⟨"end", .valid ⟨5⟩⟩] "end" "bad" none none (some ⟨3⟩) none
      (Or.inr rfl) rfl⟩

/-- C6: a record that reaches the date filter is excluded silently — the
accumulation is returned unchanged and no diagnostic is emitted — exactly
when the filter rejects it (start before the floor or end after the
ceiling); and a start floor at the midnight of some day rejects every
record whose start lies on any earlier day, regardless of its end. -/
theorem date_filter_excludes_silently :
    (∀ (sf ef : Option DT) (uf : Option (List String)) (acc : Accum)
        (r : Record) (name : String) (s e : DT),
      r.full_name = some name →
      usersFilterSkips uf name = false →
      scanChildren r.children none none = .ok (.done (some s) (some e)) →
      dateFilterSkips sf ef s e = true →
      processRecord sf ef uf acc r = .ok (acc, [])) ∧
    (∀ (ef : Option DT) (s e f : DT),
      dayKey s < dayKey f → f.seconds = 86400 * dayKey f →
      dateFilterSkips (some f) ef s e = true) := by
  constructor
  · intro sf ef uf acc r name s e hname hu hscan hd
    simp [processRecord, hname, hu, hscan, hd]
  · intro ef s e f h1 h2
    unfold dayKey at h1 h2
    have hdm : 86400 * Int.ediv s.seconds 86400 + Int.emod s.seconds 86400
        = s.seconds := Int.ediv_add_emod s.seconds 86400
    have hup : Int.emod s.seconds 86400 < 86400 :=
      Int.emod_lt_of_pos s.seconds (by norm_num)
    have hlt : s.seconds < f.seconds := by omega
    simp [dateFilterSkips, hlt]

/-- C6 witness: with a floor at the midnight of day 1 (think
`--start 2024-01-02` with day 0 = 2024-01-01), a record starting at
day 0, 01:00 and ending inside day 1 is silently dropped: the
accumulation is unchanged and no diagnostic is emitted. -/
theorem date_filter_excludes_silently_witness :
    processRecord (some ⟨86400⟩) none none [("B", [(5, 7)])]
      ⟨some "A", [⟨"start", .valid ⟨3600⟩⟩, ⟨"end", .valid ⟨90000⟩⟩]⟩
      = .ok ([("B", [(5, 7)])], []) ∧
    dateFilterSkips (some ⟨86400⟩) none ⟨3600⟩ ⟨90000⟩ = true :=
  ⟨date_filter_excludes_silently.1 (some ⟨86400⟩) none none [("B", [(5, 7)])]
      ⟨some "A", [⟨"start", .valid ⟨3600⟩⟩, ⟨"end", .valid ⟨90000⟩⟩]⟩
      "A" ⟨3600⟩ ⟨90000⟩ rfl rfl rfl rfl,
   date_filter_excludes_silently.2 none ⟨3600⟩ ⟨90000⟩ ⟨86400⟩
      (by decide) (by decide)⟩

/-- C7 counterexample: a validated record with `end` before `start`
(elapsed −60 seconds) is added unmodified, so the returned accumulation
stores a negative value, refuting "every stored value is non-negative". -/
theorem negative_stored_value_counterexample :
    calculate [.record ⟨some "A", [⟨"start", .valid ⟨100⟩⟩, ⟨"end", .valid ⟨40⟩⟩]⟩]
      none none none = .ok ([("A", [(0, -60)])], []) ∧
    lookup2 [("A", [(0, -60)])] "A" 0 = some (-60) ∧
    (-60 : Int) < 0 :=
  ⟨rfl, rfl, by decide⟩

/-- C7 (amended): every stored value is an integer number of whole
seconds, and it is non-negative provided every record of the stream that
scans to both boundaries has `end ≥ start` (the code adds a negative
elapsed value unmodified, so the unconditional claim fails — see the
counterexample). -/
theorem calculate_values_nonneg_of_end_ge_start :
    ∀ (items : List StreamItem) (sf ef : Option DT) (uf : Option (List String))
      (acc : Accum) (ds : List Diag),
      calculate items sf ef uf = .ok (acc, ds) →
      (∀ r, StreamItem.record r ∈ items → ∀ s e : DT,
        scanChildren r.children none none = .ok (.done (some s) (some e)) →
        s.seconds ≤ e.seconds) →
      ∀ n k val, lookup2 acc n k = some val → 0 ≤ val := by
  intro items sf ef uf acc ds h hrecs n k val hval
  refine calcLoop_nonneg sf ef uf items [] [] (acc, ds) h hrecs ?_ n k val hval
  intro n0 k0 val0 h0
  simp [lookup2, accGetD, accGet, dmGet] at h0

/-- C7 witness: a one-record stream with elapsed 50 seconds yields the
value 50, which the amended theorem proves non-negative. -/
theorem calculate_values_nonneg_witness :
    calculate [.record ⟨some "A", [⟨"start", .valid ⟨0⟩⟩, ⟨"end", .valid ⟨50⟩⟩]⟩]
      none none none = .ok ([("A", [(0, 50)])], []) ∧
    (0 : Int) ≤ 50 :=
  ⟨rfl,
   calculate_values_nonneg_of_end_ge_start
     [.record ⟨some "A", [⟨"start", .valid ⟨0⟩⟩, ⟨"end", .valid ⟨50⟩⟩]⟩]
     none none none [("A", [(0, 50)])] [] rfl
     (by
       intro r hr s e hscan
       simp at hr
       subst hr
       have h2 : (Except.ok (ScanResult.done (some (⟨0⟩ : DT)) (some (⟨50⟩ : DT)))
           : Except RunError ScanResult) = .ok (.done (some s) (some e)) := hscan
       simp at h2
       obtain ⟨hs, he⟩ := h2
       rw [← hs, ← he]
       decide)
     "A" 0 50 rfl⟩

/-- C8: the claim predicts the duration string `1 h, 1 m, 1 s` for 3661
seconds (S = d mod 60).  The first `divmod` pair on lines 107-108 computes
exactly that decomposition, but lines 110-111 then rebind `seconds` to
`duration - hours*3600`, i.e. d mod 3600, so the rendered row is
`1 h, 1 m, 61 s`. -/
theorem output_timedelta_3661_eval :
    output_timedelta 3661 = "1 h, 1 m, 61 s" ∧
    output_timedelta 3661 ≠ "1 h, 1 m, 1 s" ∧
    Int.ediv 3661 3600 = 1 ∧ Int.ediv (Int.emod 3661 3600) 60 = 1 ∧
    Int.emod 3661 60 = 1 :=
  ⟨rfl, by decide, rfl, rfl, rfl⟩

/-- C9: when exactly one record of the stream contributes to a given
(name, day) pair — every other record either is skipped or contributes to
a different pair — the returned accumulation maps that pair to exactly
that record's `int((end - start).total_seconds())`. -/
theorem single_contribution_stored_exactly :
    ∀ (pre post : List StreamItem) (r : Record) (sf ef : Option DT)
      (uf : Option (List String)) (n : String) (dk v : Int)
      (acc : Accum) (ds : List Diag),
      contributes sf ef uf r = some (n, dk, v) →
      (∀ r', StreamItem.record r' ∈ pre → ∀ n' dk' v',
        contributes sf ef uf r' = some (n', dk', v') → ¬(n' = n ∧ dk' = dk)) →
      (∀ r', StreamItem.record r' ∈ post → ∀ n' dk' v',
        contributes sf ef uf r' = some (n', dk', v') → ¬(n' = n ∧ dk' = dk)) →
      calculate (pre ++ .record r :: post) sf ef uf = .ok (acc, ds) →
      lookup2 acc n dk = some v := by
  intro pre post r sf ef uf n dk v acc ds hc hpre hpost h
  unfold calculate at h
  obtain ⟨acc1, ds1, h1, h2⟩ :=
    calcLoop_append_ok sf ef uf pre (.record r :: post) [] [] (acc, ds) h
  have hnone : lookup2 acc1 n dk = none := by
    have hfr := lookup2_calcLoop_no_contrib sf ef uf pre [] [] (acc1, ds1) n dk h1 hpre
    exact hfr
  obtain ⟨acc2, ds2, hp, hrest⟩ := calcLoop_cons_record sf ef uf r post acc1 ds1 (acc, ds) h2
  have hself := lookup2_processRecord_self sf ef uf acc1 r n dk v acc2 ds2 hc hp
  have hprev : dmGetD (accGetD acc1 n) dk 0 = 0 := by
    unfold dmGetD
    have hx : dmGet (accGetD acc1 n) dk = none := hnone
    rw [hx]
    rfl
  rw [hprev] at hself
  have hfinal : lookup2 acc n dk = lookup2 acc2 n dk :=
    lookup2_calcLoop_no_contrib sf ef uf post acc2 (ds1 ++ ds2) (acc, ds) n dk hrest hpost
  rw [hfinal, hself]
  norm_num

/-- C9 witness: a stream of one contributing record for ("A", day 0) with
elapsed 100 seconds, followed by a skipped record (missing name), stores
exactly 100 for that pair. -/
theorem single_contribution_stored_exactly_witness :
    calculate [.record ⟨some "A", [⟨"start", .valid ⟨0⟩⟩, ⟨"end", .valid ⟨100⟩⟩]⟩,
               .record ⟨none, []⟩] none none none
      = .ok ([("A", [(0, 100)])], [.missingName]) ∧
    lookup2 [("A", [(0, 100)])] "A" 0 = some 100 :=
  ⟨rfl,
   single_contribution_stored_exactly []
     [.record ⟨none, []⟩]
     ⟨some "A", [⟨"start", .valid ⟨0⟩⟩, ⟨"end", .valid ⟨100⟩⟩]⟩
     none none none "A" 0 100 [("A", [(0, 100)])] [.missingName] rfl
     (by
       intro r' hr'
       simp at hr')
     (by
       intro r' hr' n' dk' v' hc'
       simp at hr'
       subst hr'
       simp [contributes] at hc')
     rfl⟩

/-- C10: a record that is skipped for any reason — missing name, user
filter, caught timestamp parse failure, missing boundary, or date filter
— leaves the accumulation exactly as it was before the record was read:
no key added, removed or modified. -/
theorem skipped_record_leaves_accumulation :
    ∀ (sf ef : Option DT) (uf : Option (List String)) (acc : Accum)
      (r : Record) (acc' : Accum) (ds : List Diag),
      processRecord sf ef uf acc r = .ok (acc', ds) →
      contributes sf ef uf r = none →
      acc' = acc :=
  fun sf ef uf acc r acc' ds hp hc =>
    processRecord_acc_of_contributes_none sf ef uf acc r acc' ds hp hc

/-- C10 witness: a record excluded by the user filter leaves a non-empty
accumulation untouched. -/
theorem skipped_record_leaves_accumulation_witness :
    processRecord none none (some ["Bob"]) [("Bob", [(2, 9)])]
      ⟨some "Eve", [⟨"start", .valid ⟨0⟩⟩, ⟨"end", .valid ⟨10⟩⟩]⟩
      = .ok ([("Bob", [(2, 9)])], []) ∧
    ([("Bob", [(2, 9)])] : Accum) = [("Bob", [(2, 9)])] :=
  ⟨rfl,
   skipped_record_leaves_accumulation none none (some ["Bob"]) [("Bob", [(2, 9)])]
     ⟨some "Eve", [⟨"start", .valid ⟨0⟩⟩, ⟨"end", .valid ⟨10⟩⟩]⟩
     [("Bob", [(2, 9)])] [] rfl rfl⟩
